import Mathlib

/-!
Verification of the FP-WebServer request-processing core: a shallow
embedding of the parser-combinator engine (src/unnamed/part_003,
`combinaor.hpp`), the HTTP grammar layer (src/parser/http_parser.hpp),
the request model (src/parser/types.hpp), the path matcher
(src/router/matcher.hpp), the immutable router (src/router/router.hpp)
and the middleware composer (src/router/middleware.hpp).

Byte strings (`std::string_view`, `std::string`) are modelled as
`List Char` restricted to the code points the server manipulates
(ASCII), so byte-for-byte comparison coincides with `Char` equality
and `std::string` lexicographic order coincides with the order on
`Char` code points.
-/

namespace FPWeb

/-- Byte strings of the C++ code (`std::string`, `std::string_view`). -/
abbrev Str := List Char

/-- `enum class ParseError` of src/parser/types.hpp. -/
inductive ParseError where
  | InvalidMethod
  | InvalidUri
  | InvalidVersion
  | InvalidHeader
  | IncompleteRequest
  | MalformedRequest
deriving DecidableEq

/-- `Parser<T>` of `combinaor.hpp`: a function from input to either
a value with the remaining input, or a `ParseError`. -/
def Parser (α : Type) : Type := Str → Except ParseError (α × Str)

/-- `combinator::one_char`: one byte, `IncompleteRequest` on empty input. -/
def one_char : Parser Char := fun input =>
  match input with
  | [] => .error .IncompleteRequest
  | c :: rest => .ok (c, rest)

/-- `combinator::string(target)`: succeeds iff the input starts with
`target`, consuming it; otherwise `MalformedRequest`. -/
def string (target : Str) : Parser Str := fun input =>
  if target.isPrefixOf input then .ok (target, input.drop target.length)
  else .error .MalformedRequest

/-- `combinator::map(pa, f)`: transforms a successful value, leaves errors. -/
def map {α β : Type} (p : Parser α) (f : α → β) : Parser β := fun input =>
  match p input with
  | .ok (a, rest) => .ok (f a, rest)
  | .error e => .error e

/-- Two-parser overload `combinator::choice(p1, p2)`: result of `p1` if it
succeeds, otherwise whatever `p2` returns on the original input. -/
def choice2 {α : Type} (p1 p2 : Parser α) : Parser α := fun input =>
  match p1 input with
  | .ok r => .ok r
  | .error _ => p2 input

/-- Vector overload `combinator::choice(parsers)`: first success over the
original input; `MalformedRequest` when the list is exhausted. -/
def choice {α : Type} : List (Parser α) → Parser α
  | [] => fun _ => .error .MalformedRequest
  | p :: ps => fun input =>
    match p input with
    | .ok r => .ok r
    | .error _ => choice ps input

/-- `std::isspace` in the C locale: space, tab, LF, VT, FF, CR. -/
def isSpaceC (c : Char) : Bool :=
  c = ' ' || c = '\t' || c = '\n' || c = '\x0b' || c = '\x0c' || c = '\r'

/-- `std::isdigit` in the C locale. -/
def isDigitC (c : Char) : Bool := '0' ≤ c && c ≤ '9'

/-- `enum class Method` of src/parser/types.hpp (declaration order fixes
the underlying values used by `std::map`'s key comparison). -/
inductive Method where
  | Get
  | Post
  | Head
  | Put
  | Delete
  | Options
  | Trace
  | Connect
  | Patch
deriving DecidableEq

/-- Underlying integer value of the `Method` enumerator. -/
def Method.idx : Method → Nat
  | .Get => 0
  | .Post => 1
  | .Head => 2
  | .Put => 3
  | .Delete => 4
  | .Options => 5
  | .Trace => 6
  | .Connect => 7
  | .Patch => 8

/-- `enum class Version` of src/parser/types.hpp. -/
inductive Version where
  | Http10
  | Http11
deriving DecidableEq

/-- `struct RequestLine` of src/parser/types.hpp. -/
structure RequestLine where
  method : Method
  uri : Str
  version : Version
deriving DecidableEq

/-- `using Headers = std::unordered_map<std::string, std::string>`:
modelled as an association list with unique keys; only key lookup and
the insert operations are observable, so bucket order is irrelevant. -/
abbrev Headers := List (Str × Str)

/-- `std::unordered_map::insert`: adds the pair only when the key is not
already bound; an existing mapping is KEPT (insert never overwrites). -/
def Headers.insertH (hs : Headers) (kv : Str × Str) : Headers :=
  if hs.any (fun p => decide (p.1 = kv.1)) then hs else hs ++ [kv]

/-- `std::unordered_map::operator[]` followed by assignment: binds the
key to the value, overwriting an existing mapping. -/
def Headers.setH (hs : Headers) (k v : Str) : Headers :=
  if hs.any (fun p => decide (p.1 = k)) then
    hs.map (fun p => if p.1 = k then (p.1, v) else p)
  else hs ++ [(k, v)]

/-- `std::unordered_map::find` restricted to the mapped value. -/
def Headers.findH (hs : Headers) (k : Str) : Option Str :=
  (hs.find? (fun p => decide (p.1 = k))).map (fun p => p.2)

/-- `struct HttpRequest` of src/parser/types.hpp. -/
structure HttpRequest where
  request_line : RequestLine
  headers : Headers
  body : Str
deriving DecidableEq

/-- `HttpRequest::header`. -/
def HttpRequest.header (r : HttpRequest) (k : Str) : Option Str :=
  Headers.findH r.headers k

/-- The `is_valid_number` lambda inside `HttpRequest::content_length`:
non-empty, no leading minus sign, decimal digits only. -/
def is_valid_number (s : Str) : Bool :=
  !s.isEmpty && !(s.head? = some '-' : Bool) && s.all isDigitC

/-- Numeric value denoted by a decimal digit string. -/
def digitsToNat (s : Str) : Nat :=
  s.foldl (fun n c => 10 * n + (c.toNat - '0'.toNat)) 0

/-- `ULONG_MAX` of the 64-bit target: largest value `std::stoul` can return. -/
def ULONG_MAX : Nat := 2 ^ 64 - 1

/-- `std::stoul` applied to a pure-digit string: the denoted value when it
is representable in `unsigned long`, otherwise the `std::out_of_range`
throw, which `content_length` catches into `none`. -/
def stoulDigits (s : Str) : Option Nat :=
  if digitsToNat s ≤ ULONG_MAX then some (digitsToNat s) else none

/-- `HttpRequest::content_length`: 0 unless the `Content-Length` value is a
non-empty sign-free digit string that `std::stoul` accepts. -/
def HttpRequest.content_length (r : HttpRequest) : Nat :=
  match r.header ("Content-Length".data) with
  | none => 0
  | some s => if is_valid_number s then (stoulDigits s).getD 0 else 0

/-- `parse_method` of src/parser/http_parser.hpp: `choice` over the nine
method literals. -/
def parse_method : Parser Method :=
  choice
    [map (string ("GET".data)) (fun _ => Method.Get),
     map (string ("POST".data)) (fun _ => Method.Post),
     map (string ("HEAD".data)) (fun _ => Method.Head),
     map (string ("PUT".data)) (fun _ => Method.Put),
     map (string ("DELETE".data)) (fun _ => Method.Delete),
     map (string ("OPTIONS".data)) (fun _ => Method.Options),
     map (string ("TRACE".data)) (fun _ => Method.Trace),
     map (string ("CONNECT".data)) (fun _ => Method.Connect),
     map (string ("PATCH".data)) (fun _ => Method.Patch)]

/-- `parse_uri`: bytes up to the first whitespace byte; `InvalidUri` when
that prefix would be empty. -/
def parse_uri : Parser Str := fun input =>
  let count := (input.takeWhile (fun c => !isSpaceC c)).length
  if count = 0 then .error .InvalidUri
  else .ok (input.take count, input.drop count)

/-- `parse_version`: `choice` over the two version literals. -/
def parse_version : Parser Version :=
  choice
    [map (string ("HTTP/1.0".data)) (fun _ => Version.Http10),
     map (string ("HTTP/1.1".data)) (fun _ => Version.Http11)]

/-- `crlf` of src/parser/http_parser.hpp. -/
def crlf : Parser Unit := map (string ("\r\n".data)) (fun _ => ())

/-- `sp` of src/parser/http_parser.hpp. -/
def sp : Parser Unit := map (string (" ".data)) (fun _ => ())

/-- `parse_request_line`: method, one space, URI, one space, version, CRLF,
failing fast with the first sub-parser error. -/
def parse_request_line : Parser RequestLine := fun input =>
  match parse_method input with
  | .error e => .error e
  | .ok (method, rest1) =>
    match sp rest1 with
    | .error e => .error e
    | .ok (_, rest2) =>
      match parse_uri rest2 with
      | .error e => .error e
      | .ok (uri, rest3) =>
        match sp rest3 with
        | .error e => .error e
        | .ok (_, rest4) =>
          match parse_version rest4 with
          | .error e => .error e
          | .ok (version, rest5) =>
            match crlf rest5 with
            | .error e => .error e
            | .ok (_, rest6) => .ok (⟨method, uri, version⟩, rest6)

/-- Index of the first occurrence of the two-byte sequence CR LF
(`std::string_view::find` with the literal used by `parse_header`). -/
def findCRLF : Str → Option Nat
  | [] => none
  | '\r' :: '\n' :: _ => some 0
  | _ :: rest => (findCRLF rest).map (· + 1)

/-- `parse_header`: split at the first colon, skip leading whitespace of the
value except CR, require a terminating CRLF. -/
def parse_header : Parser (Str × Str) := fun input =>
  match input.findIdx? (fun c => decide (c = ':')) with
  | none => .error .InvalidHeader
  | some colon_pos =>
    let key := input.take colon_pos
    let rest := input.drop (colon_pos + 1)
    let skipped := (rest.takeWhile (fun c => isSpaceC c && !(c = '\r' : Bool))).length
    let rest1 := rest.drop skipped
    match findCRLF rest1 with
    | none => .error .InvalidHeader
    | some crlf_pos => .ok ((key, rest1.take crlf_pos), rest1.drop (crlf_pos + 2))

/-- The header-block terminator test `input.starts_with("\r\n")`. -/
def startsWithCRLF : Str → Bool
  | '\r' :: '\n' :: _ => true
  | _ => false

/-- The `while (true)` loop of `parse_headers`, with an explicit fuel
parameter standing for the (finite) number of iterations; every
successful `parse_header` strictly shrinks the input
(`parse_header_shrinks`), so with fuel `input.length + 1` the fuel-0
branch is unreachable (`parse_headers_fuel_irrel`). -/
def parse_headers_fuel : Nat → Headers → Str → Except ParseError (Headers × Str)
  | 0, _, _ => .error .MalformedRequest
  | fuel + 1, hs, input =>
    if startsWithCRLF input then .ok (hs, input.drop 2)
    else
      match parse_header input with
      | .error e => .error e
      | .ok (kv, rest) => parse_headers_fuel fuel (Headers.insertH hs kv) rest

/-- `parse_headers` of src/parser/http_parser.hpp: loop `parse_header`
until the remaining input starts with CRLF, accumulating via
`std::unordered_map::insert`. -/
def parse_headers : Parser Headers := fun input =>
  parse_headers_fuel (input.length + 1) [] input

/-- `parse_http_request`: request line, then headers, then the remaining
bytes verbatim as the body. -/
def parse_http_request (input : Str) : Except ParseError HttpRequest :=
  match parse_request_line input with
  | .error e => .error e
  | .ok (request_line, rest1) =>
    match parse_headers rest1 with
    | .error e => .error e
    | .ok (headers, rest2) => .ok ⟨request_line, headers, rest2⟩

/-! ## Response model (src/router/types.hpp) -/

/-- `struct HttpResponse` of src/router/types.hpp. -/
structure HttpResponse where
  status_code : Int
  status_text : Str
  headers : Headers
  body : Str
deriving DecidableEq

/-- `HttpResponse::ok`. -/
def HttpResponse.ok : HttpResponse := ⟨200, "OK".data, [], []⟩

/-- `HttpResponse::not_found`. -/
def HttpResponse.not_found : HttpResponse := ⟨404, "Not Found".data, [], []⟩

/-- `HttpResponse::bad_request`. -/
def HttpResponse.bad_request : HttpResponse := ⟨400, "Bad Request".data, [], []⟩

/-- `HttpResponse::internal_server_error`. -/
def HttpResponse.internal_server_error : HttpResponse :=
  ⟨500, "Internal Server Error".data, [], []⟩

/-- `HttpResponse::with_header`: `headers.insert({key, value})` — the
`std::unordered_map::insert` call, which keeps an existing mapping. -/
def HttpResponse.with_header (r : HttpResponse) (k v : Str) : HttpResponse :=
  { r with headers := Headers.insertH r.headers (k, v) }

/-- `HttpResponse::with_text`: body from the text, and
`headers["Content-Type"] = "text/plain"` (assignment, overwrites). -/
def HttpResponse.with_text (r : HttpResponse) (text : Str) : HttpResponse :=
  { r with body := text,
           headers := Headers.setH r.headers ("Content-Type".data) ("text/plain".data) }

/-- `Handler`: a function from request to response; a C++ handler may also
throw, so the result is `Except` with the exception message
(`std::exception::what()`) as the error payload. -/
def Handler : Type := HttpRequest → Except Str HttpResponse

/-- `RouteMatch` of src/router/types.hpp. -/
structure RouteMatch where
  handler : Handler
  params : Headers

/-! ## Path matcher (src/router/matcher.hpp) -/

/-- One atom of the regex text `PathPattern`'s constructor builds:
a literal character (the constructor escapes `.` `?` `+` so they are
literal; the other characters it emits are `/`, segment-final pattern
characters and the escaped set — the claims' patterns contain no
unescaped ECMAScript metacharacter, which §9 of the spec flags as an
unhandled latent case), the capture `([^/]+)`, or the capture `(.*)`. -/
inductive RItem where
  | lit (c : Char)
  | capSeg
  | capAll
deriving DecidableEq

/-- State threaded through `PathPattern`'s compilation loop: the regex
built so far, the parameter names, `current_segment` and `in_param`. -/
structure CompileSt where
  regex : List RItem
  params : List Str
  current : Str
  in_param : Bool

/-- The character loop of `PathPattern::PathPattern`, iterating over the
pattern; `rest.isEmpty` is the `i == pattern.size() - 1` test. A character
that is neither `:` nor `/` nor last matches no branch of the loop body
and is dropped. Returning without recursing on `*` is the `break`. -/
def compileGo : List Char → CompileSt → CompileSt
  | [], st => st
  | c :: rest, st =>
    let isLast := rest.isEmpty
    if c = ':' then
      compileGo rest { st with in_param := true, current := [] }
    else if c = '/' ∨ isLast then
      let st1 :=
        if st.in_param then
          let cur := if isLast ∧ ¬(c = '/') then st.current ++ [c] else st.current
          { st with params := st.params ++ [cur],
                    regex := st.regex ++ [RItem.capSeg],
                    current := cur,
                    in_param := false }
        else st
      if c = '/' then
        compileGo rest { st1 with regex := st1.regex ++ [RItem.lit '/'] }
      else if c = '*' then
        { st1 with params := st1.params ++ ["wildcard".data],
                   regex := st1.regex ++ [RItem.capAll] }
      else if st1.in_param then
        compileGo rest { st1 with current := st1.current ++ [c] }
      else
        compileGo rest { st1 with regex := st1.regex ++ [RItem.lit c] }
    else
      compileGo rest st

/-- `class PathPattern`: the pattern string, the compiled regex (anchored
`^...$` on both ends, hence the full-match semantics of `reMatch`), and
the ordered parameter names. -/
structure PathPattern where
  pattern : Str
  regexItems : List RItem
  param_names : List Str
deriving DecidableEq

/-- `PathPattern`'s constructor. -/
def PathPattern.compile (pattern : Str) : PathPattern :=
  let st := compileGo pattern ⟨[], [], [], false⟩
  ⟨pattern, st.regex, st.params⟩

/-- First success of a list of candidates. -/
def firstSome {α : Type} : List (Option α) → Option α
  | [] => none
  | some a :: _ => some a
  | none :: rest => firstSome rest

/-- `std::regex_match` against the anchored regexes the constructor emits:
the whole path must be consumed, captures are returned in order, and the
two capture forms are greedy with backtracking, as in ECMAScript — longer
candidate substrings are tried first. -/
def reMatch : List RItem → Str → Option (List Str)
  | [], s => if s.isEmpty then some [] else none
  | RItem.lit c :: items, s =>
    match s with
    | [] => none
    | d :: s1 => if c = d then reMatch items s1 else none
  | RItem.capSeg :: items, s =>
    let maxLen := (s.takeWhile (fun c => !(c = '/' : Bool))).length
    firstSome (((List.range maxLen).map (fun j => maxLen - j)).map
      (fun k =>
        match reMatch items (s.drop k) with
        | some caps => some (s.take k :: caps)
        | none => none))
  | RItem.capAll :: items, s =>
    firstSome (((List.range (s.length + 1)).map (fun j => s.length - j)).map
      (fun k =>
        match reMatch items (s.drop k) with
        | some caps => some (s.take k :: caps)
        | none => none))

/-- The capture-collection loop of `PathPattern::match`:
`params[param_names_[i - 1]] = matches[i].str()` for every capture with a
name (`zip` drops captures beyond the names, as the bounds check does). -/
def buildParams (names : List Str) (caps : List Str) : Headers :=
  (names.zip caps).foldl (fun acc nv => Headers.setH acc nv.1 nv.2) []

/-- `PathPattern::match`: full-path regex match, returning the mapping
from parameter name to captured substring. -/
def PathPattern.matchPath (p : PathPattern) (path : Str) : Option Headers :=
  match reMatch p.regexItems path with
  | none => none
  | some caps => some (buildParams p.param_names caps)

/-! ## Immutable router (src/router/router.hpp) -/

/-- `Router::RouteKey = std::pair<parser::Method, std::string>`. -/
abbrev RouteKey := Method × Str

/-- `std::string::operator<`: lexicographic byte comparison. -/
def strLtB : Str → Str → Bool
  | [], [] => false
  | [], _ :: _ => true
  | _ :: _, [] => false
  | a :: as, b :: bs => if a < b then true else if b < a then false else strLtB as bs

/-- `std::pair::operator<` on `RouteKey`: the enum compares by underlying
value, then the pattern string lexicographically. -/
def keyLt (a b : RouteKey) : Bool :=
  decide (Method.idx a.1 < Method.idx b.1) ||
    (!(decide (Method.idx b.1 < Method.idx a.1)) && strLtB a.2 b.2)

/-- One entry of the backing `std::map`. -/
abbrev RouteEntry := RouteKey × PathPattern × Handler

/-- `(*new_routes)[key] = {PathPattern(pattern), handler}` on the copied
table: `std::map` keeps its entries sorted by `keyLt`, and `operator[]`
with assignment overwrites the value at an existing key. -/
def insertRoute : List RouteEntry → RouteKey → PathPattern × Handler → List RouteEntry
  | [], k, v => [(k, v)]
  | e :: rest, k, v =>
    if keyLt k e.1 then (k, v) :: e :: rest
    else if keyLt e.1 k then e :: insertRoute rest k v
    else (k, v) :: rest

/-- `class Router`: the persistent route table. `Router::route` builds a
full copy of the table with the new entry; in this pure embedding the
copy is the new list value, and the old `Router` value is untouched by
construction. -/
structure Router where
  routes : List RouteEntry

/-- `Router()`. -/
def Router.empty : Router := ⟨[]⟩

/-- `Router::route`: a new `Router` over a copy of the table with the
`(method, pattern)` entry inserted or overwritten. -/
def Router.route (r : Router) (method : Method) (pattern : Str) (handler : Handler) :
    Router :=
  ⟨insertRoute r.routes (method, pattern) (PathPattern.compile pattern, handler)⟩

/-- `Router::get`. -/
def Router.get (r : Router) (pattern : Str) (handler : Handler) : Router :=
  r.route Method.Get pattern handler

/-- `Router::post`. -/
def Router.post (r : Router) (pattern : Str) (handler : Handler) : Router :=
  r.route Method.Post pattern handler

/-- `Router::put`. -/
def Router.put (r : Router) (pattern : Str) (handler : Handler) : Router :=
  r.route Method.Put pattern handler

/-- `Router::delete_`. -/
def Router.delete_ (r : Router) (pattern : Str) (handler : Handler) : Router :=
  r.route Method.Delete pattern handler

/-- The scan loop of `Router::find` over the table entries in their stored
(key-sorted) order: skip entries of another method, return the first
whose matcher accepts the request URI. -/
def findGo (req : HttpRequest) : List RouteEntry → Option RouteMatch
  | [] => none
  | e :: rest =>
    if e.1.1 = req.request_line.method then
      match e.2.1.matchPath req.request_line.uri with
      | some params => some ⟨e.2.2, params⟩
      | none => findGo req rest
    else findGo req rest

/-- `Router::find`. -/
def Router.find (r : Router) (req : HttpRequest) : Option RouteMatch :=
  findGo req r.routes

/-- `Router::handle`: 404 with a plain-text body when `find` fails,
otherwise the handler result, with a thrown fault caught and turned into
a 500 response carrying the fault message. -/
def Router.handle (r : Router) (req : HttpRequest) : HttpResponse :=
  match r.find req with
  | none => HttpResponse.not_found.with_text ("Route not found".data)
  | some m =>
    match m.handler req with
    | .ok response => response
    | .error e =>
      HttpResponse.internal_server_error.with_text ("Handler error: ".data ++ e)

/-! ## Middleware composer (src/router/middleware.hpp) -/

/-- `using Middleware = std::function<Handler(Handler)>`. -/
def Middleware : Type := Handler → Handler

/-- `middleware::cors`: runs the inner handler (a thrown fault propagates
through unchanged), then `with_header` for the two CORS headers. -/
def cors : Middleware := fun next req =>
  match next req with
  | .error e => .error e
  | .ok response =>
    .ok ((response.with_header ("Access-Control-Allow-Origin".data) ("*".data)).with_header
      ("Access-Control-Allow-Methods".data) ("GET, POST, PUT, DELETE".data))

/-- `middleware::compose`: `std::accumulate` over the reversed middleware
list, each step wrapping the handler built so far. -/
def compose (middlewares : List Middleware) (final_handler : Handler) : Handler :=
  middlewares.reverse.foldl (fun h m => m h) final_handler

theorem parse_header_shrinks {input : Str} {kv : Str × Str} {rest : Str}
    (h : parse_header input = .ok (kv, rest)) : rest.length < input.length := by
  have hne : input ≠ [] := by
    intro he
    subst he
    simp [parse_header] at h
  simp only [parse_header] at h
  split at h
  · exact absurd h (by simp)
  · split at h
    · exact absurd h (by simp)
    · rw [Except.ok.injEq, Prod.mk.injEq] at h
      obtain ⟨-, hrest⟩ := h
      subst hrest
      have hlen : input.length > 0 := List.length_pos.mpr hne
      simp only [List.length_drop]
      omega

theorem parse_headers_fuel_irrel :
    ∀ (f1 f2 : Nat) (hs : Headers) (input : Str),
      input.length < f1 → input.length < f2 →
      parse_headers_fuel f1 hs input = parse_headers_fuel f2 hs input := by
  intro f1
  induction f1 with
  | zero => intro f2 hs input h1 h2; omega
  | succ n ih =>
    intro f2 hs input h1 h2
    cases f2 with
    | zero => omega
    | succ m =>
      simp only [parse_headers_fuel]
      split
      · rfl
      · cases hp : parse_header input with
        | error e => rfl
        | ok pr =>
          obtain ⟨kv, rest⟩ := pr
          have hlt := parse_header_shrinks hp
          exact ih m _ rest (by omega) (by omega)

theorem findH_insertH_preserves {hs : Headers} {k v : Str} {kv : Str × Str}
    (h : Headers.findH hs k = some v) :
    Headers.findH (Headers.insertH hs kv) k = some v := by
  unfold Headers.insertH
  split
  · exact h
  · unfold Headers.findH at h ⊢
    rw [List.find?_append]
    cases hf : hs.find? (fun p => decide (p.1 = k)) with
    | none => rw [hf] at h; simp at h
    | some p => rw [hf] at h; simpa [Option.or] using h

theorem findH_insertH_self (hs : Headers) (k v : Str) :
    Headers.findH (Headers.insertH hs (k, v)) k =
      some ((Headers.findH hs k).getD v) := by
  unfold Headers.insertH
  split
  · rename_i hany
    rw [List.any_eq_true] at hany
    obtain ⟨p, hp, hpk⟩ := hany
    rw [decide_eq_true_eq] at hpk
    have : (hs.find? (fun q => decide (q.1 = k))).isSome := by
      rw [List.find?_isSome]
      exact ⟨p, hp, by simp [hpk]⟩
    unfold Headers.findH
    cases hf : hs.find? (fun q => decide (q.1 = k)) with
    | none => rw [hf] at this; simp at this
    | some q => simp [hf]
  · rename_i hany
    have hnone : hs.find? (fun q => decide (q.1 = k)) = none := by
      rw [List.find?_eq_none]
      intro x hx
      rw [decide_eq_true_eq]
      intro hxk
      exact hany (List.any_eq_true.mpr ⟨x, hx, by simp [hxk]⟩)
    unfold Headers.findH
    rw [List.find?_append, hnone]
    simp [Option.or]

theorem findH_insertH_ne {hs : Headers} {k v k1 : Str} (hne : ¬(k1 = k)) :
    Headers.findH (Headers.insertH hs (k, v)) k1 = Headers.findH hs k1 := by
  unfold Headers.insertH
  split
  · rfl
  · unfold Headers.findH
    rw [List.find?_append]
    cases hf : hs.find? (fun q => decide (q.1 = k1)) with
    | none =>
      have hne2 : ¬(k = k1) := fun he => hne he.symm
      simp [Option.or, hne2]
    | some q => simp [Option.or]

/-- Claim C1, counterexample: on the header block `A: 1`/`A: 2`,
`parse_headers` binds `A` to the value of the FIRST occurrence, `1`,
which differs from the later value `2` the claim requires. -/
theorem parse_headers_last_write_cex :
    (match parse_headers ("A: 1\r\nA: 2\r\n\r\n".data) with
     | .ok p => Headers.findH p.1 ("A".data)
     | .error _ => none) = some ("1".data) ∧
    ¬(("1".data : Str) = "2".data) :=
  ⟨rfl, by decide⟩

/-- Claim C1, amended: duplicate header names KEEP the earlier value —
`parse_headers` accumulates with `std::unordered_map::insert`, which never
overwrites an existing key, so a name is bound to the value of its first
occurrence and keys stay unique (first conjunct: once a name is bound, no
later header line changes it, for any fuel, hence for `parse_headers` and
`parse_http_request`; second and third conjuncts: the duplicate-input
behaviour, through `parse_headers` and `parse_http_request`). -/
theorem parse_headers_first_write_wins :
    (∀ (fuel : Nat) (input : Str) (hs hs1 : Headers) (rest : Str) (k v : Str),
      Headers.findH hs k = some v →
      parse_headers_fuel fuel hs input = .ok (hs1, rest) →
      Headers.findH hs1 k = some v) ∧
    parse_headers ("A: 1\r\nA: 2\r\n\r\n".data) = .ok ([(("A".data : Str), ("1".data : Str))], []) ∧
    parse_http_request ("GET / HTTP/1.1\r\nA: 1\r\nA: 2\r\n\r\n".data) =
      .ok ⟨⟨Method.Get, "/".data, Version.Http11⟩, [(("A".data : Str), ("1".data : Str))], []⟩ := by
  refine ⟨?_, rfl, rfl⟩
  intro fuel
  induction fuel with
  | zero => intro input hs hs1 rest k v hk hp; exact absurd hp (by simp [parse_headers_fuel])
  | succ n ih =>
    intro input hs hs1 rest k v hk hp
    simp only [parse_headers_fuel] at hp
    split at hp
    · rw [Except.ok.injEq, Prod.mk.injEq] at hp
      obtain ⟨hhs, -⟩ := hp
      subst hhs
      exact hk
    · cases hph : parse_header input with
      | error e => rw [hph] at hp; exact absurd hp (by simp)
      | ok pr =>
        obtain ⟨kv, rest1⟩ := pr
        rw [hph] at hp
        exact ih rest1 _ hs1 rest k v (findH_insertH_preserves hk) hp

/-- Claim C1, witness: a binding made by an earlier line survives the rest
of the header block. -/
theorem parse_headers_first_write_wins_witness :
    Headers.findH [(("A".data : Str), ("1".data : Str))] ("A".data) = some ("1".data) ∧
    parse_headers_fuel 8 [(("A".data : Str), ("1".data : Str))] ("A: 2\r\n\r\n".data) =
      .ok ([(("A".data : Str), ("1".data : Str))], []) ∧
    Headers.findH [(("A".data : Str), ("1".data : Str))] ("A".data) = some ("1".data) :=
  ⟨rfl, rfl,
    parse_headers_first_write_wins.1 8 ("A: 2\r\n\r\n".data)
      [(("A".data : Str), ("1".data : Str))] [(("A".data : Str), ("1".data : Str))]
      [] ("A".data) ("1".data) rfl rfl⟩

/-- Claim C9, counterexample: `2 ^ 64` is a non-empty pure-digit value, yet
`content_length` yields 0 because `std::stoul` overflows `unsigned long`
(the claim requires the denoted integer for every pure-digit string). -/
theorem content_length_overflow_cex :
    (HttpRequest.mk ⟨Method.Get, "/".data, Version.Http11⟩
        [(("Content-Length".data : Str), ("18446744073709551616".data : Str))] []).content_length = 0 ∧
    is_valid_number ("18446744073709551616".data) = true ∧
    digitsToNat ("18446744073709551616".data) = 2 ^ 64 ∧
    (0 : Nat) ≠ 2 ^ 64 :=
  ⟨rfl, rfl, by decide, by decide⟩

/-- Claim C9, amended: `content_length` is 0 for a missing header, an empty
value, a value with a leading minus sign or any non-digit byte, and also
for a pure-digit value exceeding `ULONG_MAX` (where `std::stoul` throws
`std::out_of_range`, caught into 0); it returns the denoted unsigned
integer exactly for non-empty pure-digit values that fit in
`unsigned long`. -/
theorem content_length_spec (req : HttpRequest) :
    (req.header ("Content-Length".data) = none → req.content_length = 0) ∧
    (∀ s, req.header ("Content-Length".data) = some s →
      ((s = [] → req.content_length = 0) ∧
       (s.head? = some '-' → req.content_length = 0) ∧
       (¬(s.all isDigitC = true) → req.content_length = 0) ∧
       (is_valid_number s = true → digitsToNat s ≤ ULONG_MAX →
         req.content_length = digitsToNat s) ∧
       (digitsToNat s > ULONG_MAX → req.content_length = 0))) := by
  constructor
  · intro h
    simp [HttpRequest.content_length, h]
  · intro s h
    refine ⟨?_, ?_, ?_, ?_, ?_⟩
    · intro he
      subst he
      simp [HttpRequest.content_length, h, is_valid_number]
    · intro hm
      have : is_valid_number s = false := by
        simp [is_valid_number, hm]
      simp [HttpRequest.content_length, h, this]
    · intro hd
      have : is_valid_number s = false := by
        simp only [is_valid_number, Bool.and_eq_false_iff]
        right
        exact Bool.eq_false_iff.mpr hd
      simp [HttpRequest.content_length, h, this]
    · intro hv hle
      simp [HttpRequest.content_length, h, hv, stoulDigits, hle]
    · intro hgt
      have : ¬(digitsToNat s ≤ ULONG_MAX) := by omega
      simp [HttpRequest.content_length, h, stoulDigits, this]
/-- Claim C9, witness: a plain `42` is accepted and parsed. -/
theorem content_length_spec_witness :
    (HttpRequest.mk ⟨Method.Get, "/".data, Version.Http11⟩
        [(("Content-Length".data : Str), ("42".data : Str))] []).header ("Content-Length".data) =
      some ("42".data) ∧
    is_valid_number ("42".data) = true ∧
    digitsToNat ("42".data) ≤ ULONG_MAX ∧
    (HttpRequest.mk ⟨Method.Get, "/".data, Version.Http11⟩
        [(("Content-Length".data : Str), ("42".data : Str))] []).content_length =
      digitsToNat ("42".data) :=
  ⟨rfl, rfl, by decide,
    (((content_length_spec (HttpRequest.mk ⟨Method.Get, "/".data, Version.Http11⟩
        [(("Content-Length".data : Str), ("42".data : Str))] [])).2
      ("42".data) rfl).2.2.2.1 rfl (by decide))⟩

/-- Claim C10, counterexample: with `string("a")` and `one_char` (mapped to
a common value type) as the two alternatives and empty input, both fail but
the two-parser `choice` overload returns the SECOND parser's error
`IncompleteRequest`, not the `MalformedRequest` the claim requires. -/
theorem choice_two_overload_error_cex :
    choice2 (string ("a".data)) (map one_char (fun c => [c])) [] =
      .error .IncompleteRequest ∧
    string ("a".data) [] = (.error .MalformedRequest : Except ParseError (Str × Str)) ∧
    ParseError.IncompleteRequest ≠ ParseError.MalformedRequest :=
  ⟨rfl, rfl, by decide⟩

/-- Claim C10, amended: both overloads try the alternatives in order
against the same original input and return the first success unmodified;
when every alternative fails the vector overload returns
`MalformedRequest`, but the two-parser overload returns whatever the
second parser returned (its error, not necessarily `MalformedRequest`). -/
theorem choice_spec :
    (∀ (α : Type) (ps : List (Parser α)) (input : Str),
      (∀ p ∈ ps, ∃ e, p input = .error e) →
      choice ps input = .error .MalformedRequest) ∧
    (∀ (α : Type) (ps1 : List (Parser α)) (p : Parser α) (ps2 : List (Parser α))
        (input : Str) (r : α × Str),
      (∀ q ∈ ps1, ∃ e, q input = .error e) → p input = .ok r →
      choice (ps1 ++ p :: ps2) input = .ok r) ∧
    (∀ (α : Type) (p1 p2 : Parser α) (input : Str) (r : α × Str),
      p1 input = .ok r → choice2 p1 p2 input = .ok r) ∧
    (∀ (α : Type) (p1 p2 : Parser α) (input : Str) (e : ParseError),
      p1 input = .error e → choice2 p1 p2 input = p2 input) := by
  refine ⟨?_, ?_, ?_, ?_⟩
  · intro α ps input hall
    induction ps with
    | nil => rfl
    | cons p ps ih =>
      obtain ⟨e, he⟩ := hall p (List.mem_cons_self p ps)
      simp only [choice, he]
      exact ih (fun q hq => hall q (List.mem_cons_of_mem p hq))
  · intro α ps1 p ps2 input r hfail hp
    induction ps1 with
    | nil => simp only [List.nil_append, choice, hp]
    | cons q qs ih =>
      obtain ⟨e, he⟩ := hfail q (List.mem_cons_self q qs)
      simp only [List.cons_append, choice, he]
      exact ih (fun q1 hq1 => hfail q1 (List.mem_cons_of_mem q hq1))
  · intro α p1 p2 input r hp
    simp only [choice2, hp]
  · intro α p1 p2 input e hp
    simp only [choice2, hp]

/-- Claim C10, witness: the four parts at concrete parsers and inputs. -/
theorem choice_spec_witness :
    choice [string ("a".data)] [] = .error .MalformedRequest ∧
    choice [string ("b".data), string ("a".data)] ("ax".data) = .ok ("a".data, "x".data) ∧
    choice2 (string ("a".data)) (string ("b".data)) ("ax".data) = .ok ("a".data, "x".data) ∧
    choice2 (string ("b".data)) (string ("a".data)) ("ax".data) =
      string ("a".data) ("ax".data) :=
  ⟨choice_spec.1 Str [string ("a".data)] []
      (by intro p hp; simp at hp; subst hp; exact ⟨.MalformedRequest, rfl⟩),
   choice_spec.2.1 Str [string ("b".data)] (string ("a".data)) [] ("ax".data)
      (("a".data : Str), ("x".data : Str))
      (by intro q hq; simp at hq; subst hq; exact ⟨.MalformedRequest, rfl⟩) rfl,
   choice_spec.2.2.1 Str (string ("a".data)) (string ("b".data)) ("ax".data)
      (("a".data : Str), ("x".data : Str)) rfl,
   choice_spec.2.2.2 Str (string ("b".data)) (string ("a".data)) ("ax".data)
      .MalformedRequest rfl⟩

/-- A shared GET request value, as the tests build `HttpRequest` directly. -/
def reqGet (uri : Str) : HttpRequest := ⟨⟨Method.Get, uri, Version.Http11⟩, [], []⟩

theorem strLtB_cons_iff {a b : Char} {as bs : Str} :
    strLtB (a :: as) (b :: bs) = true ↔ (a < b ∨ (a = b ∧ strLtB as bs = true)) := by
  simp only [strLtB]
  by_cases hab : a < b
  · simp [hab]
  · by_cases hba : b < a
    · simp only [if_neg hab, if_pos hba]
      constructor
      · intro h
        exact absurd h (by simp)
      · rintro (h | ⟨h1, h2⟩)
        · exact absurd h hab
        · subst h1
          exact absurd hba (lt_irrefl a)
    · have hab2 : a = b := le_antisymm (not_lt.mp hba) (not_lt.mp hab)
      simp only [if_neg hab, if_neg hba]
      constructor
      · intro h
        exact Or.inr ⟨hab2, h⟩
      · rintro (h | ⟨h1, h2⟩)
        · exact absurd h hab
        · exact h2

theorem strLtB_trans {a b c : Str} (h1 : strLtB a b = true) (h2 : strLtB b c = true) :
    strLtB a c = true := by
  induction a generalizing b c with
  | nil =>
    cases b with
    | nil => simp [strLtB] at h1
    | cons y bs =>
      cases c with
      | nil => simp [strLtB] at h2
      | cons z cs => simp [strLtB]
  | cons x as ih =>
    cases b with
    | nil => simp [strLtB] at h1
    | cons y bs =>
      cases c with
      | nil => simp [strLtB] at h2
      | cons z cs =>
        rw [strLtB_cons_iff] at h1 h2 ⊢
        rcases h1 with h1 | ⟨h1a, h1b⟩
        · rcases h2 with h2 | ⟨h2a, h2b⟩
          · exact Or.inl (lt_trans h1 h2)
          · exact Or.inl (h2a ▸ h1)
        · rcases h2 with h2 | ⟨h2a, h2b⟩
          · exact Or.inl (h1a ▸ h2)
          · exact Or.inr ⟨h1a.trans h2a, ih h1b h2b⟩

theorem strLtB_eq_of_not {a b : Str} (h1 : strLtB a b = false) (h2 : strLtB b a = false) :
    a = b := by
  induction a generalizing b with
  | nil =>
    cases b with
    | nil => rfl
    | cons y bs => simp [strLtB] at h1
  | cons x as ih =>
    cases b with
    | nil => simp [strLtB] at h2
    | cons y bs =>
      have h1a : ¬(strLtB (x :: as) (y :: bs) = true) := by simp [h1]
      have h2a : ¬(strLtB (y :: bs) (x :: as) = true) := by simp [h2]
      rw [strLtB_cons_iff] at h1a h2a
      push_neg at h1a h2a
      obtain ⟨h1b, h1c⟩ := h1a
      obtain ⟨h2b, h2c⟩ := h2a
      have hxy : x = y := le_antisymm h2b h1b
      have has : as = bs :=
        ih (Bool.eq_false_iff.mpr (h1c hxy)) (Bool.eq_false_iff.mpr (h2c hxy.symm))
      rw [hxy, has]

theorem keyLt_iff {a b : RouteKey} :
    keyLt a b = true ↔
      (Method.idx a.1 < Method.idx b.1 ∨
       (Method.idx a.1 = Method.idx b.1 ∧ strLtB a.2 b.2 = true)) := by
  simp only [keyLt, Bool.or_eq_true, Bool.and_eq_true, decide_eq_true_eq,
    Bool.not_eq_true', decide_eq_false_iff_not]
  constructor
  · rintro (h | ⟨h1, h2⟩)
    · exact Or.inl h
    · rcases Nat.lt_trichotomy (Method.idx a.1) (Method.idx b.1) with h3 | h3 | h3
      · exact Or.inl h3
      · exact Or.inr ⟨h3, h2⟩
      · exact absurd h3 h1
  · rintro (h | ⟨h1, h2⟩)
    · exact Or.inl h
    · exact Or.inr ⟨by omega, h2⟩

theorem keyLt_trans {a b c : RouteKey} (h1 : keyLt a b = true) (h2 : keyLt b c = true) :
    keyLt a c = true := by
  rw [keyLt_iff] at h1 h2 ⊢
  rcases h1 with h1 | ⟨h1a, h1b⟩
  · rcases h2 with h2 | ⟨h2a, h2b⟩
    · exact Or.inl (by omega)
    · exact Or.inl (by omega)
  · rcases h2 with h2 | ⟨h2a, h2b⟩
    · exact Or.inl (by omega)
    · exact Or.inr ⟨by omega, strLtB_trans h1b h2b⟩

theorem method_idx_inj {m1 m2 : Method} (h : Method.idx m1 = Method.idx m2) : m1 = m2 := by
  revert h
  cases m1 <;> cases m2 <;> decide

theorem keyLt_eq_of_not {a b : RouteKey} (h1 : keyLt a b = false) (h2 : keyLt b a = false) :
    a = b := by
  have h1a : ¬(keyLt a b = true) := by simp [h1]
  have h2a : ¬(keyLt b a = true) := by simp [h2]
  rw [keyLt_iff] at h1a h2a
  push_neg at h1a h2a
  obtain ⟨h1b, h1c⟩ := h1a
  obtain ⟨h2b, h2c⟩ := h2a
  have hidx : Method.idx a.1 = Method.idx b.1 := by omega
  have hm : a.1 = b.1 := method_idx_inj hidx
  have hs : a.2 = b.2 :=
    strLtB_eq_of_not (Bool.eq_false_iff.mpr (h1c hidx)) (Bool.eq_false_iff.mpr (h2c hidx.symm))
  exact Prod.ext hm hs

/-- The key-sortedness invariant `std::map` maintains on the route table. -/
def RouteOrdered (l : List RouteEntry) : Prop :=
  l.Pairwise (fun a b => keyLt a.1 b.1 = true)

theorem insertRoute_mem {l : List RouteEntry} {k : RouteKey} {v : PathPattern × Handler}
    {x : RouteEntry} (h : x ∈ insertRoute l k v) : x = (k, v) ∨ x ∈ l := by
  induction l with
  | nil => simp [insertRoute] at h; simp [h]
  | cons e rest ih =>
    simp only [insertRoute] at h
    split at h
    · simp only [List.mem_cons] at h
      rcases h with h | h | h
      · exact Or.inl h
      · exact Or.inr (by simp [h])
      · exact Or.inr (by simp [h])
    · split at h
      · simp only [List.mem_cons] at h
        rcases h with h | h
        · exact Or.inr (by simp [h])
        · rcases ih h with h1 | h1
          · exact Or.inl h1
          · exact Or.inr (by simp [h1])
      · simp only [List.mem_cons] at h
        rcases h with h | h
        · exact Or.inl h
        · exact Or.inr (by simp [h])

theorem insertRoute_sorted {l : List RouteEntry} {k : RouteKey} {v : PathPattern × Handler}
    (h : RouteOrdered l) : RouteOrdered (insertRoute l k v) := by
  induction l with
  | nil => simp [insertRoute, RouteOrdered]
  | cons e rest ih =>
    rw [RouteOrdered, List.pairwise_cons] at h
    obtain ⟨hhead, htail⟩ := h
    simp only [insertRoute]
    split
    · rename_i hlt
      rw [RouteOrdered, List.pairwise_cons]
      constructor
      · intro x hx
        simp only [List.mem_cons] at hx
        rcases hx with hx | hx
        · simp [hx, hlt]
        · exact keyLt_trans hlt (hhead x hx)
      · exact List.Pairwise.cons hhead htail
    · split
      · rename_i hlt1 hlt2
        rw [RouteOrdered, List.pairwise_cons]
        constructor
        · intro x hx
          rcases insertRoute_mem hx with hx1 | hx1
          · subst hx1; exact hlt2
          · exact hhead x hx1
        · exact ih htail
      · rename_i hlt1 hlt2
        have hk : k = e.1 :=
          keyLt_eq_of_not (Bool.eq_false_iff.mpr hlt1) (Bool.eq_false_iff.mpr hlt2)
        rw [RouteOrdered, List.pairwise_cons]
        constructor
        · intro x hx
          rw [hk]
          exact hhead x hx
        · exact htail

/-- The per-entry test `Router::find` performs: method equal and matcher
accepting the request URI. -/
def routeEntryMatches (req : HttpRequest) (e : RouteEntry) : Bool :=
  decide (e.1.1 = req.request_line.method) && (e.2.1.matchPath req.request_line.uri).isSome

theorem findGo_eq_filter_head (req : HttpRequest) (l : List RouteEntry) :
    findGo req l = ((l.filter (routeEntryMatches req)).head?).map
      (fun e => RouteMatch.mk e.2.2 ((e.2.1.matchPath req.request_line.uri).getD [])) := by
  induction l with
  | nil => rfl
  | cons e rest ih =>
    by_cases hm : e.1.1 = req.request_line.method
    · cases hmp : e.2.1.matchPath req.request_line.uri with
      | some params =>
        have hmatch : routeEntryMatches req e = true := by
          simp [routeEntryMatches, hm, hmp]
        simp only [findGo, if_pos hm, hmp, List.filter_cons, hmatch, if_pos trivial]
        simp [hmp]
      | none =>
        have hmatch : routeEntryMatches req e = false := by
          simp [routeEntryMatches, hmp]
        simp only [findGo, if_pos hm, hmp, List.filter_cons, hmatch]
        simpa using ih
    · have hmatch : routeEntryMatches req e = false := by
        simp [routeEntryMatches, hm]
      simp only [findGo, if_neg hm, List.filter_cons, hmatch]
      simpa using ih

/-- Claim C2: `PathPattern::PathPattern`'s loop only reacts to a byte that
is `:`, `/`, or the last byte of the pattern, so every other pattern byte
is silently dropped from the compiled regex and from parameter names.
`"/users/:id"` therefore compiles to the regex `^//([^/]+)d$` with the
single parameter name `"d"`, and `match("/users/42")` finds no match —
contradicting the documented `{"id":"42"}` (README and the example
register such routes, so the code contradicts its own documentation). -/
theorem pathPattern_param_match_bug :
    (PathPattern.compile ("/users/:id".data)).matchPath ("/users/42".data) = none ∧
    (PathPattern.compile ("/users/:id".data)).param_names = [("d".data)] ∧
    (PathPattern.compile ("/users/:id".data)).regexItems =
      [RItem.lit '/', RItem.lit '/', RItem.capSeg, RItem.lit 'd'] :=
  ⟨rfl, rfl, rfl⟩

/-- Claim C3: a `*` that is not the last pattern byte matches no branch of
the compilation loop, so `"/static/*path"` compiles to the regex `^//h$`
with NO capture and no parameter names, and `match("/static/a/b.css")`
finds no match — contradicting the documented `{"path":"a/b.css"}`.
Even when `*` IS last (`"/static/*"`), the parameter is named by the
hard-coded string `"wildcard"`, not by the name written after `*`. -/
theorem pathPattern_wildcard_match_bug :
    (PathPattern.compile ("/static/*path".data)).matchPath ("/static/a/b.css".data) = none ∧
    (PathPattern.compile ("/static/*path".data)).param_names = [] ∧
    (PathPattern.compile ("/static/*path".data)).regexItems =
      [RItem.lit '/', RItem.lit '/', RItem.lit 'h'] ∧
    (PathPattern.compile ("/static/*".data)).param_names = [("wildcard".data)] ∧
    (PathPattern.compile ("/static/*".data)).regexItems =
      [RItem.lit '/', RItem.lit '/', RItem.capAll] :=
  ⟨rfl, rfl, rfl, rfl, rfl⟩

/-- Claim C4: registration never disturbs an existing `Router` value —
`Router::route` copies the table into the new value, and in this pure
embedding the old value is untouched by construction; concretely, with
`r1 = Router().get("/a", h)` and `r2 = r1.get("/b", h2)`, `r1` still
resolves GET `/a` to `h` with no parameters, still fails GET `/b`, while
`r2` resolves both. -/
theorem router_persistence (h h2 : Handler) :
    (Router.empty.get ("/a".data) h).find (reqGet ("/a".data)) = some ⟨h, []⟩ ∧
    (Router.empty.get ("/a".data) h).find (reqGet ("/b".data)) = none ∧
    ((Router.empty.get ("/a".data) h).get ("/b".data) h2).find (reqGet ("/b".data)) =
      some ⟨h2, []⟩ ∧
    ((Router.empty.get ("/a".data) h).get ("/b".data) h2).find (reqGet ("/a".data)) =
      some ⟨h, []⟩ ∧
    (Router.empty.get ("/a".data) h).routes =
      insertRoute [] (Method.Get, "/a".data) (PathPattern.compile ("/a".data), h) :=
  ⟨rfl, rfl, rfl, rfl, rfl⟩

/-- Claim C5: `Router::handle` returns the 404 plain-text response when
`find` yields nothing; otherwise it runs the matched handler, passing a
normal result through unchanged and converting a raised fault into the
500 response whose body is `Handler error: ` followed by the fault
message — never re-raising and never retrying. -/
theorem router_handle_dispatch (r : Router) (req : HttpRequest) :
    (r.find req = none →
      r.handle req = HttpResponse.not_found.with_text ("Route not found".data) ∧
      (r.handle req).status_code = 404) ∧
    (∀ m, r.find req = some m →
      (∀ resp, m.handler req = .ok resp → r.handle req = resp) ∧
      (∀ e, m.handler req = .error e →
        r.handle req =
          HttpResponse.internal_server_error.with_text (("Handler error: ".data) ++ e) ∧
        (r.handle req).status_code = 500)) := by
  constructor
  · intro hnone
    unfold Router.handle
    rw [hnone]
    exact ⟨rfl, rfl⟩
  · intro m hsome
    constructor
    · intro resp hok
      simp [Router.handle, hsome, hok]
    · intro e herr
      simp [Router.handle, hsome, herr, HttpResponse.with_text, HttpResponse.internal_server_error]

/-- Claim C5, witness: a route whose handler raises `boom` is dispatched
to the 500 response carrying the message. -/
theorem router_handle_dispatch_witness :
    (Router.empty.get ("/a".data) (fun _ => Except.error ("boom".data))).handle
        (reqGet ("/a".data)) =
      HttpResponse.internal_server_error.with_text
        (("Handler error: ".data) ++ ("boom".data)) :=
  (((router_handle_dispatch
      (Router.empty.get ("/a".data) (fun _ => Except.error ("boom".data)))
      (reqGet ("/a".data))).2
    ⟨fun _ => Except.error ("boom".data), []⟩ rfl).2 ("boom".data) rfl).1

/-- Claim C6: on a key-sorted table (the invariant `std::map` maintains
and `route` preserves, third conjunct), `find` returns exactly the head
of the key-ordered list of matching entries (first conjunct), so when
several registered patterns match, the entry whose `(method, pattern)`
key is smallest — by enum value then byte-wise pattern order, not by
registration order — wins (second conjunct). -/
theorem router_find_key_order (r : Router) (req : HttpRequest)
    (hord : RouteOrdered r.routes) :
    (r.find req = ((r.routes.filter (routeEntryMatches req)).head?).map
      (fun e => RouteMatch.mk e.2.2 ((e.2.1.matchPath req.request_line.uri).getD []))) ∧
    (∀ e ∈ r.routes, routeEntryMatches req e = true →
      ∃ e0, (r.routes.filter (routeEntryMatches req)).head? = some e0 ∧
        routeEntryMatches req e0 = true ∧
        (keyLt e0.1 e.1 = true ∨ e0.1 = e.1)) ∧
    (∀ (method : Method) (pattern : Str) (handler : Handler),
      RouteOrdered ((r.route method pattern handler).routes)) := by
  refine ⟨findGo_eq_filter_head req r.routes, ?_, ?_⟩
  · intro e he hm
    have hmem : e ∈ r.routes.filter (routeEntryMatches req) :=
      List.mem_filter.mpr ⟨he, hm⟩
    cases hfil : r.routes.filter (routeEntryMatches req) with
    | nil => rw [hfil] at hmem; exact absurd hmem (List.not_mem_nil e)
    | cons e0 tl =>
      refine ⟨e0, rfl, ?_, ?_⟩
      · have : e0 ∈ r.routes.filter (routeEntryMatches req) := by
          rw [hfil]
          exact List.mem_cons_self e0 tl
        exact (List.mem_filter.mp this).2
      · have hps : (r.routes.filter (routeEntryMatches req)).Pairwise
            (fun a b => keyLt a.1 b.1 = true) :=
          List.Pairwise.filter _ hord
        rw [hfil, List.pairwise_cons] at hps
        rw [hfil] at hmem
        rcases List.mem_cons.mp hmem with hx | hx
        · exact Or.inr (by rw [hx])
        · exact Or.inl (hps.1 e hx)
  · intro method pattern handler
    exact insertRoute_sorted hord

/-- Claim C6, witness: both `"/ax"` and `"/x"` compile to matchers
accepting the path `/x` (the former because the compilation loop drops
its middle byte); registering `/x` before `/ax`, the table is
nevertheless sorted with `(Get, "/ax")` first, and `find` picks that
entry. -/
theorem router_find_key_order_witness :
    ((Router.empty.get ("/x".data) (fun _ => Except.ok HttpResponse.ok)).get ("/ax".data)
        (fun _ => Except.ok HttpResponse.not_found)).find (reqGet ("/x".data)) =
      (((((Router.empty.get ("/x".data) (fun _ => Except.ok HttpResponse.ok)).get ("/ax".data)
          (fun _ => Except.ok HttpResponse.not_found)).routes.filter
            (routeEntryMatches (reqGet ("/x".data)))).head?).map
        (fun e => RouteMatch.mk e.2.2
          ((e.2.1.matchPath (reqGet ("/x".data)).request_line.uri).getD []))) :=
  (router_find_key_order
    ((Router.empty.get ("/x".data) (fun _ => Except.ok HttpResponse.ok)).get ("/ax".data)
      (fun _ => Except.ok HttpResponse.not_found))
    (reqGet ("/x".data))
    (by
      unfold RouteOrdered
      refine List.Pairwise.cons ?_ (List.pairwise_singleton _ _)
      intro x hx
      rw [List.mem_singleton] at hx
      subst hx
      decide)).1

/-- Claim C7, counterexample: when the inner response already carries an
`Access-Control-Allow-Origin` value, `cors` leaves it in place — the
`with_header` underneath is `std::unordered_map::insert`, which never
overwrites — so the header is NOT set to `*` as the claim requires. -/
theorem cors_overwrite_cex :
    cors (fun _ => .ok (HttpResponse.ok.with_header
        ("Access-Control-Allow-Origin".data) ("x".data))) (reqGet ("/".data)) =
      .ok ⟨200, "OK".data,
        [(("Access-Control-Allow-Origin".data : Str), ("x".data : Str)),
         (("Access-Control-Allow-Methods".data : Str), ("GET, POST, PUT, DELETE".data : Str))],
        []⟩ ∧
    Headers.findH
        [(("Access-Control-Allow-Origin".data : Str), ("x".data : Str)),
         (("Access-Control-Allow-Methods".data : Str), ("GET, POST, PUT, DELETE".data : Str))]
        ("Access-Control-Allow-Origin".data) = some ("x".data) ∧
    ¬(("x".data : Str) = "*".data) :=
  ⟨rfl, rfl, by decide⟩

/-- Claim C7, amended: `cors` returns the inner handler's response with
`Access-Control-Allow-Origin` and `Access-Control-Allow-Methods` bound to
`*` and `GET, POST, PUT, DELETE` only when those names were unbound —
values the inner response already carried under those names are KEPT, not
overwritten (the `with_header` chain uses `std::unordered_map::insert`);
every other header and all other response fields are unchanged. -/
theorem cors_adds_missing_headers (next : Handler) (req : HttpRequest)
    (resp : HttpResponse) (h : next req = .ok resp) :
    ∃ resp1, cors next req = .ok resp1 ∧
      resp1.status_code = resp.status_code ∧
      resp1.status_text = resp.status_text ∧
      resp1.body = resp.body ∧
      Headers.findH resp1.headers ("Access-Control-Allow-Origin".data) =
        some ((Headers.findH resp.headers ("Access-Control-Allow-Origin".data)).getD
          ("*".data)) ∧
      Headers.findH resp1.headers ("Access-Control-Allow-Methods".data) =
        some ((Headers.findH resp.headers ("Access-Control-Allow-Methods".data)).getD
          ("GET, POST, PUT, DELETE".data)) ∧
      (∀ k, ¬(k = ("Access-Control-Allow-Origin".data : Str)) →
        ¬(k = ("Access-Control-Allow-Methods".data : Str)) →
        Headers.findH resp1.headers k = Headers.findH resp.headers k) := by
  refine ⟨(resp.with_header ("Access-Control-Allow-Origin".data) ("*".data)).with_header
    ("Access-Control-Allow-Methods".data) ("GET, POST, PUT, DELETE".data), ?_, rfl, rfl, rfl,
    ?_, ?_, ?_⟩
  · simp [cors, h]
  · show Headers.findH
      (Headers.insertH (Headers.insertH resp.headers _) _) _ = _
    rw [findH_insertH_ne (by decide)]
    exact findH_insertH_self resp.headers _ _
  · show Headers.findH
      (Headers.insertH (Headers.insertH resp.headers _) _) _ = _
    rw [findH_insertH_self]
    rw [findH_insertH_ne (by decide)]
  · intro k hk1 hk2
    show Headers.findH
      (Headers.insertH (Headers.insertH resp.headers _) _) _ = _
    rw [findH_insertH_ne hk2, findH_insertH_ne hk1]

/-- Claim C7, witness: on an inner response with no CORS headers, both
headers come out bound to the permissive values and the body survives. -/
theorem cors_adds_missing_headers_witness :
    (fun _ => .ok (HttpResponse.ok.with_text ("hi".data)) : Handler) (reqGet ("/".data)) =
      .ok (HttpResponse.ok.with_text ("hi".data)) ∧
    (∃ resp1, cors (fun _ => .ok (HttpResponse.ok.with_text ("hi".data))) (reqGet ("/".data)) =
        .ok resp1 ∧
      resp1.status_code = (HttpResponse.ok.with_text ("hi".data)).status_code ∧
      resp1.status_text = (HttpResponse.ok.with_text ("hi".data)).status_text ∧
      resp1.body = (HttpResponse.ok.with_text ("hi".data)).body ∧
      Headers.findH resp1.headers ("Access-Control-Allow-Origin".data) =
        some ((Headers.findH (HttpResponse.ok.with_text ("hi".data)).headers
          ("Access-Control-Allow-Origin".data)).getD ("*".data)) ∧
      Headers.findH resp1.headers ("Access-Control-Allow-Methods".data) =
        some ((Headers.findH (HttpResponse.ok.with_text ("hi".data)).headers
          ("Access-Control-Allow-Methods".data)).getD ("GET, POST, PUT, DELETE".data)) ∧
      (∀ k, ¬(k = ("Access-Control-Allow-Origin".data : Str)) →
        ¬(k = ("Access-Control-Allow-Methods".data : Str)) →
        Headers.findH resp1.headers k =
          Headers.findH (HttpResponse.ok.with_text ("hi".data)).headers k)) :=
  ⟨rfl, cors_adds_missing_headers (fun _ => .ok (HttpResponse.ok.with_text ("hi".data)))
    (reqGet ("/".data)) (HttpResponse.ok.with_text ("hi".data)) rfl⟩

/-- A middleware that marks its pre-logic in the request body and its
post-logic in the response body, to observe execution order. -/
def probe (name : Str) : Middleware := fun next req =>
  match next { req with body := req.body ++ name ++ "<".data } with
  | .ok resp => .ok { resp with body := resp.body ++ name ++ ">".data }
  | .error e => .error e

/-- A terminal handler that records its own run after the request trace. -/
def probeH : Handler := fun req => .ok { HttpResponse.ok with body := req.body ++ "H".data }

/-- Claim C8: `compose` folds from the last middleware to the first, so
`compose([A, B], H) = A(B(H))` and the first list element is the
outermost wrapper (first conjunct, definitional for every `A`, `B`, `H`);
running the composed handler with order-observing probes records
`A`-pre, `B`-pre, `H`, `B`-post, `A`-post, in exactly that order
(second conjunct). -/
theorem compose_first_outermost :
    (∀ (A B : Middleware) (H : Handler), compose [A, B] H = A (B H)) ∧
    compose [probe ("A".data), probe ("B".data)] probeH (reqGet ("/".data)) =
      .ok { HttpResponse.ok with body := "A<B<HB>A>".data } :=
  ⟨fun _ _ _ => rfl, rfl⟩

end FPWeb
